import Mathlib

set_option maxHeartbeats 1000000

/-!
Verification development for the tree multi-selection state machine
(`packages/core/src/browser/tree/tree-selection.ts` and
`packages/core/src/browser/tree/tree-model.ts`).

Node identity is modelled as `Nat` (the TypeScript code compares nodes by
reference identity; the trees in question have pairwise distinct nodes, so
identities are ids).  The gesture stack of `TreeSelectionState` is modelled
as a `List Sel` whose HEAD is the TOP of the stack, i.e. the reverse of the
TypeScript `selectionStack` array (whose index 0 is the oldest gesture).
-/

/-- `TreeSelection.SelectionType` from tree-selection.ts. -/
inductive SType where
  | DEFAULT
  | TOGGLE
  | RANGE
deriving DecidableEq, Repr

/-- A `TreeSelection` record: the selected node and the selection type. -/
structure Sel where
  node : Nat
  type : SType
deriving DecidableEq, Repr

/-- The argument of `nextState` / `addSelection`: a tree selection or the
`reset` string. -/
inductive Gesture where
  | reset
  | sel (node : Nat) (ty : SType)
deriving DecidableEq, Repr

/-- `true` iff the selection has the `RANGE` type. -/
def isRange (s : Sel) : Bool :=
  match s.type with
  | SType.RANGE => true
  | _ => false

/-- The collaborating `Tree` as consumed by the selection code:
whether `tree.root` is defined, the sequence of nodes yielded by
`new PreOrderTreeIterator(root, pruneCollapsed := true)`, the result of
`tree.validateNode`, and the `SelectableTreeNode.is` test. -/
structure SelTree where
  hasRoot : Bool
  preorder : List Nat
  valid : Nat → Bool
  selectable : Nat → Bool

/-- JavaScript `Array.prototype.indexOf`: index of the first occurrence,
`-1` when absent. -/
def jsIndexOf (l : List Nat) (x : Nat) : Int :=
  match l with
  | [] => -1
  | y :: ys =>
    if y = x then 0
    else
      let r := jsIndexOf ys x
      if r < 0 then -1 else r + 1

/-- The collection loop of `TreeSelectionState.selectionRange` after the
`started` flag has been set: push nodes until (and including) the node at
which the second endpoint is reached. -/
def collectAfter (fr toN : Nat) : List Nat → List Nat
  | [] => []
  | n :: rest => if n = fr ∨ n = toN then [n] else n :: collectAfter fr toN rest

/-- The collection loop of `TreeSelectionState.selectionRange` before the
`started` flag is set: skip nodes until one of the endpoints is reached,
then collect through `collectAfter`. -/
def collectRange (fr toN : Nat) : List Nat → List Nat
  | [] => []
  | n :: rest =>
    if n = fr ∨ n = toN then n :: collectAfter fr toN rest
    else collectRange fr toN rest

/-- `TreeSelectionState.selectionRange(fromNode, toNode)` from
tree-selection.ts: guards for a missing `fromNode`, equal endpoints, a
missing root and invalid endpoints; then the pre-order collection loop,
the conditional reversal (`range.indexOf(from) > range.indexOf(to)`), and
the `SelectableTreeNode.is` filter. -/
def stateSelectionRange (t : SelTree) (fromN : Option Nat) (toN : Nat) : List Nat :=
  match fromN with
  | none => []
  | some fr =>
    if toN = fr then []
    else if !t.hasRoot then []
    else if !t.valid toN then []
    else if !t.valid fr then []
    else
      let range := collectRange fr toN t.preorder
      let range := if jsIndexOf range fr > jsIndexOf range toN then range.reverse else range
      range.filter (fun n => t.selectable n)

/-- The iteration of `TreeSelectionState.in`: the `started`/`finished`
state machine over the pruned pre-order. -/
def inScan (fr toN toTest : Nat) : List Nat → Bool → Bool → Bool
  | [], _, _ => false
  | n :: rest, started, finished =>
    if finished ∨ (toTest = n ∧ ¬started = true) then false
    else
      let hit := n = fr ∨ n = toN
      let finished' := if hit ∧ started = true then true else finished
      let started' := started || decide hit
      if started' = true ∧ toTest = n then true
      else inScan fr toN toTest rest started' finished'

/-- `TreeSelectionState.in(range, from, toTest)` from tree-selection.ts,
with `range.node` passed as `toN` (the call site always builds a RANGE
selection, so the type guard never fires). -/
def selIn (t : SelTree) (fromN : Option Nat) (toN toTest : Nat) : Bool :=
  match fromN with
  | none => false
  | some fr =>
    if !t.hasRoot then false
    else if toTest = fr ∨ toTest = toN then true
    else inScan fr toN toTest t.preorder false false

/-- The `toRemove.shift(); toRemove.forEach(splice)` step of
`TreeSelectionState.handleRange`: drop every element satisfying `p`
except the first such element (scanning from the top of the stack). -/
def removeSubsumed (p : Sel → Bool) : List Sel → Bool → List Sel
  | [], _ => []
  | s :: rest, seen =>
    if p s then
      if seen then removeSubsumed p rest true
      else s :: removeSubsumed p rest true
    else s :: removeSubsumed p rest seen

/-- `TreeSelectionState.handleRange` from tree-selection.ts.  The anchor
(`lastSelection`) is the node of the top gesture; if the top gesture is a
RANGE it is popped (the user modifies the most recent range) and nothing
else is removed; otherwise every toggle above the first RANGE whose node
falls in the new range is removed except the topmost such toggle, and the
new RANGE is pushed. -/
def handleRange (t : SelTree) (stack : List Sel) (n : Nat) : List Sel :=
  let lastSelection := stack.head?.map Sel.node
  match stack with
  | [] => [Sel.mk n SType.RANGE]
  | s :: rest =>
    if isRange s then Sel.mk n SType.RANGE :: rest
    else
      let seg := stack.takeWhile (fun x => !isRange x)
      let below := stack.dropWhile (fun x => !isRange x)
      let seg' := removeSubsumed (fun x => selIn t lastSelection n x.node) seg false
      Sel.mk n SType.RANGE :: (seg' ++ below)

/-- The first loop of `TreeSelectionState.handleToggle`: scan the stack
from the top; for the topmost RANGE gesture whose computed range contains
the toggled node, replace it by toggle gestures for the range minus the
toggled node and minus the range border, and report the new stack.
`none` when no RANGE intersects. -/
def splitScan (t : SelTree) (n : Nat) : List Sel → Option (List Sel)
  | [] => none
  | s :: rest =>
    let anchor := (rest.head?).map Sel.node
    if isRange s then
      let range := stateSelectionRange t anchor s.node
      if range.contains n then
        some ((((range.erase n).drop 1).map (fun m => Sel.mk m SType.TOGGLE)).reverse ++ rest)
      else (splitScan t n rest).map (fun r => s :: r)
    else (splitScan t n rest).map (fun r => s :: r)

/-- `TreeSelectionState.handleToggle` from tree-selection.ts: first the
range-split scan; otherwise merge equal toggles in the RANGE-free top
segment of the stack (removing them unselects the node), or push the new
toggle when none matched. -/
def handleToggle (t : SelTree) (stack : List Sel) (n : Nat) : List Sel :=
  match splitScan t n stack with
  | some stack' => stack'
  | none =>
    let seg := stack.takeWhile (fun x => !isRange x)
    let below := stack.dropWhile (fun x => !isRange x)
    let toRemove := seg.filter (fun x => x.node == n)
    if toRemove.isEmpty then Sel.mk n SType.TOGGLE :: stack
    else (seg.filter (fun x => x.node != n)) ++ below

/-- `TreeSelectionState.handleDefault`: a DEFAULT selection replaces the
whole stack by a single TOGGLE gesture. -/
def handleDefault (n : Nat) : List Sel :=
  [Sel.mk n SType.TOGGLE]

/-- `true` iff the stack contains a DEFAULT selection
(`checkNoDefaultSelection` throws exactly in this case). -/
def hasDefault (stack : List Sel) : Bool :=
  stack.any (fun s => match s.type with | SType.DEFAULT => true | _ => false)

/-- `TreeSelectionState.nextState` from tree-selection.ts.  The error case
is the exception thrown by `checkNoDefaultSelection` inside
`handleToggle` / `handleRange`. -/
def nextStateE (t : SelTree) (stack : List Sel) (g : Gesture) : Except String (List Sel) :=
  match g with
  | Gesture.reset => Except.ok []
  | Gesture.sel n ty =>
    match ty with
    | SType.DEFAULT => Except.ok (handleDefault n)
    | SType.TOGGLE =>
      if hasDefault stack then Except.error "Unexpected DEFAULT selection type"
      else Except.ok (handleToggle t stack n)
    | SType.RANGE =>
      if hasDefault stack then Except.error "Unexpected DEFAULT selection type"
      else Except.ok (handleRange t stack n)

/-- One step of the `TreeSelectionState.asArray` loop (the loop runs from
the bottom of the stack to the top): toggles push their node; a RANGE pops
the node of an immediately preceding TOGGLE (the anchor, re-added by the
range walk) and pushes the computed range. -/
def asArrayStep (t : SelTree) (acc : List Nat × Option Sel) (s : Sel) : List Nat × Option Sel :=
  match s.type with
  | SType.RANGE =>
    let nodes :=
      match acc.2 with
      | some l => if l.type = SType.TOGGLE then acc.1.dropLast else acc.1
      | none => acc.1
    (nodes ++ stateSelectionRange t (acc.2.map Sel.node) s.node, some s)
  | SType.TOGGLE => (acc.1 ++ [s.node], some s)
  | SType.DEFAULT => (acc.1, some s)

/-- The body of `TreeSelectionState.asArray` (without the
`checkNoDefaultSelection` guard): fold the stack bottom-to-top and reverse
the accumulated list so the most recent contribution comes first. -/
def asArrayRaw (t : SelTree) (stack : List Sel) : List Nat :=
  (((stack.reverse).foldl (asArrayStep t) ([], none)).1).reverse

/-- `TreeSelectionState.asArray`, including the exception thrown by
`checkNoDefaultSelection`. -/
def asArrayE (t : SelTree) (stack : List Sel) : Except String (List Nat) :=
  if hasDefault stack then Except.error "Unexpected DEFAULT selection type"
  else Except.ok (asArrayRaw t stack)

/-- `TreeSelectionServiceImpl.difference`: elements of `l` not contained
in `r`. -/
def difference (l r : List Nat) : List Nat :=
  l.filter (fun x => !r.contains x)

/-- The body of `TreeSelectionServiceImpl.addSelection` after node
validation: compute the next state, diff the projections, and either keep
the old state with no event or commit the new state and fire the event.
The returned Bool records whether the selection-changed event fired. -/
def addSelectionGo (t : SelTree) (stack : List Sel) (g : Gesture) :
    Except String (List Sel × Bool) :=
  match nextStateE t stack g with
  | Except.error e => Except.error e
  | Except.ok s' =>
    match asArrayE t stack with
    | Except.error e => Except.error e
    | Except.ok oldNodes =>
      match asArrayE t s' with
      | Except.error e => Except.error e
      | Except.ok newNodes =>
        let toUnselect := difference oldNodes newNodes
        let toSelect := difference newNodes oldNodes
        if toUnselect.isEmpty ∧ toSelect.isEmpty then Except.ok (stack, false)
        else Except.ok (s', true)

/-- `TreeSelectionServiceImpl.addSelection` from tree-selection.ts: a
non-reset selection whose node fails `validateNode` is ignored. -/
def addSelectionE (t : SelTree) (stack : List Sel) (g : Gesture) :
    Except String (List Sel × Bool) :=
  match g with
  | Gesture.sel n _ =>
    if !t.valid n then Except.ok (stack, false) else addSelectionGo t stack g
  | Gesture.reset => addSelectionGo t stack g

/-- Apply a sequence of gestures starting from the empty state (as the
tree-selection-state tests chain `nextState` calls). -/
def runGestures (t : SelTree) (gs : List Gesture) : Except String (List Sel) :=
  gs.foldlM (nextStateE t) []

/-- The legacy `TreeSelectionServiceImpl.setSelection`/`doSelectNodes`
path (first version in tree-selection.ts): the selected list is replaced
by the argument filtered through `validateNode`, `notEmpty` and
`SelectableTreeNode.is`. -/
def legacySetSelection (t : SelTree) (nodes : List Nat) : List Nat :=
  nodes.filter (fun n => t.valid n && t.selectable n)

/-- `TreeModelImpl.selectionRange(toNode, fromNode)` from tree-model.ts.
`fromN = none` models the `undefined` that `selectRange` passes when
nothing is selected (then `validateNode(undefined)` fails). -/
def modelSelectionRange (t : SelTree) (toN : Nat) (fromN : Option Nat) : List Nat :=
  if (match fromN with | some fr => toN == fr | none => false) then []
  else if !t.hasRoot then []
  else if !t.valid toN then []
  else
    match fromN with
    | none => []
    | some fr =>
      if !t.valid fr then []
      else
        let range := collectRange fr toN t.preorder
        let range := if jsIndexOf range fr > jsIndexOf range toN then range.reverse else range
        range.filter (fun n => t.selectable n)

/-- The `for (const node of copy) { ... copy.splice(range.indexOf(node), 1) }`
loop of `TreeModelImpl.selectRange`: a live index-based iteration that,
for each visited element found in `range`, removes from `copy` the element
at that node's index in `range`; one visit is
`copy.splice(range.indexOf(node), 1)` guarded by `indexOf !== -1`. -/
def jsRemoveAt (range copy : List Nat) (node : Nat) : List Nat :=
  if jsIndexOf range node ≥ 0 then copy.eraseIdx (jsIndexOf range node).toNat else copy

/-- The live index-based iteration of the removal loop of
`TreeModelImpl.selectRange` (mutating `copy` while `for (const node of
copy)` walks it by index).  The iteration advances the index by one and
never lengthens `copy`, so `copy.length - idx` bounds the number of
remaining visits; it is spent as structural fuel. -/
def selectRangeSpliceGo (range : List Nat) : Nat → List Nat → Nat → List Nat
  | 0, copy, _ => copy
  | fuel + 1, copy, idx =>
    if h : idx < copy.length then
      selectRangeSpliceGo range fuel (jsRemoveAt range copy (copy.get ⟨idx, h⟩)) (idx + 1)
    else copy

/-- The whole removal loop of `TreeModelImpl.selectRange`, started at
index 0. -/
def selectRangeSplice (range : List Nat) (copy : List Nat) : List Nat :=
  selectRangeSpliceGo range copy.length copy 0

/-- `TreeModelImpl.selectRange` from tree-model.ts.  `fromN = none` means
the argument was omitted and the most recently selected node is used. -/
def modelSelectRange (t : SelTree) (selected : List Nat) (toN : Nat)
    (fromN : Option Nat) (preserve : Bool) : List Nat :=
  let fromArg := match fromN with | some f => some f | none => selected.head?
  let range := (modelSelectionRange t toN fromArg).reverse
  if range.isEmpty then selected
  else if preserve then legacySetSelection t (range ++ selectRangeSplice range selected)
  else legacySetSelection t range

/-- Modelled from the spec: the collapse-pruned PreOrder of the section 8
mock tree with every node expanded (tree-iterator.ts and
mock-tree-model.ts are not under src/; the traversal rule is section 4.1
and this listing agrees with the tree-iterator tests).  Node `1.x.y` is
written as the decimal digits `1xy`. -/
def mockPruned : List Nat := [1, 11, 111, 112, 12, 121, 1211, 1212, 122, 123, 13]

/-- Modelled from the spec: the ids of all nodes of the mock tree
(`validateNode` succeeds exactly on these). -/
def mockAll : List Nat := mockPruned

/-- The mock tree of the tests, fully expanded: every node is selectable
and valid. -/
def mockSel : SelTree :=
  SelTree.mk true mockPruned (fun n => mockAll.contains n) (fun _ => true)

/-- Modelled from the spec: the collapse-pruned PreOrder of the mock tree
with node `1.2.1` collapsed (its children `1.2.1.1`, `1.2.1.2` are
pruned), as in the S5 scenario. -/
def mockPruned121 : List Nat := [1, 11, 111, 112, 12, 121, 122, 123, 13]

/-- The mock tree with `1.2.1` collapsed: the hidden nodes are still valid
tree nodes, but no longer part of the pruned pre-order. -/
def mockSel121 : SelTree :=
  SelTree.mk true mockPruned121 (fun n => mockAll.contains n) (fun _ => true)

/-- Modelled from the spec (section 4.4, for the refinement comparison of
C3): `setSelection(nodes)` implemented on the gesture model as `RESET`
followed by one `DEFAULT` gesture per node in reverse order. -/
def specSetSelectionDefault (t : SelTree) (s : List Sel) (ns : List Nat) :
    Except String (List Sel) := do
  let s0 ← nextStateE t s Gesture.reset
  ns.reverse.foldlM (fun st n => nextStateE t st (Gesture.sel n SType.DEFAULT)) s0

/-- The variant of the spec's `setSelection` recipe with `TOGGLE` gestures
instead of `DEFAULT` ones (the amended form of C3). -/
def specSetSelectionToggle (t : SelTree) (s : List Sel) (ns : List Nat) :
    Except String (List Sel) := do
  let s0 ← nextStateE t s Gesture.reset
  ns.reverse.foldlM (fun st n => nextStateE t st (Gesture.sel n SType.TOGGLE)) s0

/-- The selection states reachable from the empty state by `nextState`
transitions (TOGGLE, RANGE, DEFAULT, reset). -/
inductive Reach (t : SelTree) : List Sel → Prop where
  | nil : Reach t []
  | step (s u : List Sel) (g : Gesture) :
      Reach t s → nextStateE t s g = Except.ok u → Reach t u

/-- Gestures that are not RANGE selections. -/
def noRangeGesture (g : Gesture) : Prop :=
  match g with
  | Gesture.sel _ SType.RANGE => False
  | _ => True

/-- The selection states reachable from the empty state using only
TOGGLE, DEFAULT and reset transitions (no RANGE gesture). -/
inductive ReachNR (t : SelTree) : List Sel → Prop where
  | nil : ReachNR t []
  | step (s u : List Sel) (g : Gesture) :
      ReachNR t s → noRangeGesture g → nextStateE t s g = Except.ok u → ReachNR t u

/-- The `onExpansionChanged` subscriber installed by `TreeModelImpl.init`
(tree-model.ts): when the event's node is collapsed and some selected node
is its descendant, and the node is visible-selectable, the selection is
replaced by that node.  `isAnc` stands for `CompositeTreeNode.isAncestor`
and `visSel` for `SelectableTreeNode.isVisible`; their sources (tree.ts)
are not under src/, so they are parameters here, instantiated below by
functions modelled from the spec. -/
def expansionHandler (t : SelTree) (isAnc : Nat → Nat → Bool) (visSel : Nat → Bool)
    (selected : List Nat) (e : Nat) (eExpanded : Bool) : List Nat :=
  if ¬eExpanded = true ∧ selected.any (fun s => isAnc e s) then
    if visSel e then legacySetSelection t [e] else selected
  else selected

/-- Modelled from the spec: the parent relation of the section 8 mock
tree. -/
def mockParent (n : Nat) : Option Nat :=
  if n = 11 ∨ n = 12 ∨ n = 13 then some 1
  else if n = 111 ∨ n = 112 then some 11
  else if n = 121 ∨ n = 122 ∨ n = 123 then some 12
  else if n = 1211 ∨ n = 1212 then some 121
  else none

/-- Modelled from the spec (section 3): the proper ancestors of a node,
i.e. the transitive closure of the parent relation, computed with a fuel
bound (the mock tree has 11 nodes, so chains are shorter than 11). -/
def ancestorsFuel (parent : Nat → Option Nat) : Nat → Nat → List Nat
  | 0, _ => []
  | fuel + 1, n =>
    match parent n with
    | none => []
    | some p => p :: ancestorsFuel parent fuel p

/-- Modelled from the spec: `CompositeTreeNode.isAncestor` over the mock
tree. -/
def mockIsAncestor (a d : Nat) : Bool :=
  (ancestorsFuel mockParent 11 d).contains a

/-- Modelled from the spec (section 3): `SelectableTreeNode.isVisible`
over the mock tree with node `1.2` collapsed.  Every mock node carries
`visible = true` and a `selected` capability, so a node is visible iff
none of its proper ancestors is the collapsed node `1.2`. -/
def mockVisSel12 (n : Nat) : Bool :=
  mockAll.contains n && (ancestorsFuel mockParent 11 n).all (fun p => p != 12)

/-- Index of the first occurrence of `x` (the length when absent). -/
def idxN (x : Nat) : List Nat → Nat
  | [] => 0
  | n :: rest => if n = x then 0 else idxN x rest + 1

/-- The stack holds no DEFAULT gesture (first stack invariant of the
spec). -/
def noDefaultStack (s : List Sel) : Prop :=
  ∀ x ∈ s, x.type ≠ SType.DEFAULT

/-- Every RANGE gesture that has an element below it in the stack sits
immediately above a TOGGLE gesture (in the head-is-top encoding, the
element after a RANGE is a TOGGLE).  The bottom element of the stack is
unconstrained, so an anchorless RANGE at the bottom is permitted. -/
def rangeAnchored (s : List Sel) : Prop :=
  List.Chain' (fun a b => a.type = SType.RANGE → b.type = SType.TOGGLE) s

/-! ## Claim theorems: concrete scenarios and counterexamples -/

/-- C5: starting from the empty selection state over the mock tree, the
gesture sequence TOGGLE 1.1, TOGGLE 1.2.1.1, RANGE 1.2.3, RANGE 1.2.1.2
produces the projection [1.2.1.2, 1.2.1.1, 1.1]. -/
theorem c5_scenario_s2 :
    (runGestures mockSel
      [Gesture.sel 11 SType.TOGGLE, Gesture.sel 1211 SType.TOGGLE,
       Gesture.sel 123 SType.RANGE, Gesture.sel 1212 SType.RANGE]).bind
      (asArrayE mockSel) = Except.ok [1212, 1211, 11] := rfl

/-- C6: applying a RANGE gesture to a state whose stack is empty raises no
error: `nextState` returns the one-gesture stack holding the anchorless
range, and that state's projection is the empty list. -/
theorem c6_range_on_empty_stack (t : SelTree) (n : Nat) :
    nextStateE t [] (Gesture.sel n SType.RANGE) = Except.ok [Sel.mk n SType.RANGE] ∧
    asArrayE t [Sel.mk n SType.RANGE] = Except.ok [] := ⟨rfl, rfl⟩

/-- C1 counterexample: the state reached from the empty state by
TOGGLE 1.3, TOGGLE 1.1, RANGE 1.1.2, TOGGLE 1.3 has the projection
[1.3, 1.1.2, 1.1.1, 1.1, 1.3], which contains the node 1.3 twice, so
`asArray()` of a reachable state is not duplicate-free. -/
theorem c1_counterexample :
    Reach mockSel
      [Sel.mk 13 SType.TOGGLE, Sel.mk 112 SType.RANGE,
       Sel.mk 11 SType.TOGGLE, Sel.mk 13 SType.TOGGLE] ∧
    asArrayE mockSel
      [Sel.mk 13 SType.TOGGLE, Sel.mk 112 SType.RANGE,
       Sel.mk 11 SType.TOGGLE, Sel.mk 13 SType.TOGGLE] = Except.ok [13, 112, 111, 11, 13] ∧
    ¬ List.Nodup [13, 112, 111, 11, 13] := by
  refine ⟨?_, rfl, by decide⟩
  exact Reach.step [Sel.mk 112 SType.RANGE, Sel.mk 11 SType.TOGGLE, Sel.mk 13 SType.TOGGLE] _
    (Gesture.sel 13 SType.TOGGLE)
    (Reach.step [Sel.mk 11 SType.TOGGLE, Sel.mk 13 SType.TOGGLE] _
      (Gesture.sel 112 SType.RANGE)
      (Reach.step [Sel.mk 13 SType.TOGGLE] _ (Gesture.sel 11 SType.TOGGLE)
        (Reach.step [] _ (Gesture.sel 13 SType.TOGGLE) Reach.nil rfl) rfl) rfl) rfl

/-- C2 counterexample: one RANGE gesture applied to the empty state yields
the reachable non-empty stack `[RANGE 1.1]`, whose first (bottom) element
is a RANGE gesture — the claimed stack invariant fails. -/
theorem c2_counterexample :
    Reach mockSel [Sel.mk 11 SType.RANGE] ∧
    ([Sel.mk 11 SType.RANGE] : List Sel) ≠ [] ∧
    (List.getLast? [Sel.mk 11 SType.RANGE]).map Sel.type = some SType.RANGE :=
  ⟨Reach.step [] _ (Gesture.sel 11 SType.RANGE) Reach.nil rfl, by decide, rfl⟩

/-- C3 counterexample: for ns = [1.1, 1], the legacy direct replacement
keeps both nodes, while RESET followed by DEFAULT gestures in reverse
order ends with the projection [1.1] only, because `handleDefault`
replaces the whole stack; the two implementations disagree. -/
theorem c3_counterexample :
    (specSetSelectionDefault mockSel [] [11, 1]).bind (asArrayE mockSel) = Except.ok [11] ∧
    legacySetSelection mockSel [11, 1] = [11, 1] ∧
    ([11] : List Nat) ≠ [11, 1] := ⟨rfl, rfl, by decide⟩

/-- C4 counterexample: with prior selection
[1.2.3, 1.2.2, 1.2.1.2, 1.2.1.1, 1.2.1, 1, 1.1.2] on the fully expanded
mock tree, `selectRange(1.2.1.2, 1.2.1, true)` produces
[1.2.1.2, 1.2.1.1, 1.2.1, 1.2.2, 1.2.1.2, 1.2.1, 1, 1.1.2] — the removal
loop splices the prior list at the node's index in the range — and not
the claimed range-prepended result [1.2.1, 1.2.1.1, 1.2.1.2, 1.2.3,
1.2.2, 1, 1.1.2]. -/
theorem c4_counterexample :
    modelSelectRange mockSel [123, 122, 1212, 1211, 121, 1, 112] 1212 (some 121) true
      = [1212, 1211, 121, 122, 1212, 121, 1, 112] ∧
    modelSelectRange mockSel [123, 122, 1212, 1211, 121, 1, 112] 1212 (some 121) true
      ≠ [121, 1211, 1212, 123, 122, 1, 112] := by
  refine ⟨rfl, ?_⟩
  rw [show modelSelectRange mockSel [123, 122, 1212, 1211, 121, 1, 112] 1212 (some 121) true
      = [1212, 1211, 121, 122, 1212, 121, 1, 112] from rfl]
  decide

/-- C7 counterexample: with node 1.2.1 collapsed, the node 1.2.1.1 is
still a valid selectable tree node, is distinct from 1.3, yet
`selectionRange(1.3, 1.2.1.1)` returns [1.3], which does not contain the
endpoint 1.2.1.1 — the inclusivity part of the claim fails for
valid-but-hidden endpoints. -/
theorem c7_counterexample :
    mockSel121.valid 1211 = true ∧ mockSel121.selectable 1211 = true ∧ (1211 : Nat) ≠ 13 ∧
    modelSelectionRange mockSel121 13 (some 1211) = [13] ∧
    (1211 : Nat) ∉ modelSelectionRange mockSel121 13 (some 1211) := by
  refine ⟨rfl, rfl, by decide, rfl, ?_⟩
  rw [show modelSelectionRange mockSel121 13 (some 1211) = [13] from rfl]
  decide

/-- C9 counterexample: the state [TOGGLE 1.1, RANGE 1.1.2, TOGGLE 1.2,
RANGE 1.1.1] (bottom to top) has topmost RANGE 1.1.1 with anchor 1.2 and
non-empty range [1.2, 1.1.2, 1.1.1]; toggling the anchor 1.2 keeps 1.2
selected, but the element following the anchor, 1.1.2, is still in the
projection (a lower range contributes it), contradicting the claim. -/
theorem c9_counterexample :
    stateSelectionRange mockSel (some 12) 111 = [12, 112, 111] ∧
    nextStateE mockSel
      [Sel.mk 111 SType.RANGE, Sel.mk 12 SType.TOGGLE,
       Sel.mk 112 SType.RANGE, Sel.mk 11 SType.TOGGLE]
      (Gesture.sel 12 SType.TOGGLE)
      = Except.ok
        [Sel.mk 111 SType.TOGGLE, Sel.mk 12 SType.TOGGLE,
         Sel.mk 112 SType.RANGE, Sel.mk 11 SType.TOGGLE] ∧
    asArrayE mockSel
      [Sel.mk 111 SType.TOGGLE, Sel.mk 12 SType.TOGGLE,
       Sel.mk 112 SType.RANGE, Sel.mk 11 SType.TOGGLE]
      = Except.ok [111, 12, 112, 111, 11] ∧
    (12 : Nat) ∈ [111, 12, 112, 111, 11] ∧ (112 : Nat) ∈ [111, 12, 112, 111, 11] := by
  exact ⟨rfl, rfl, rfl, by decide, by decide⟩

/-! ### Helper lemmas: toggle-only stacks -/

theorem takeWhile_eq_self_of (p : Sel → Bool) (l : List Sel) (h : ∀ x ∈ l, p x = true) :
    l.takeWhile p = l := by
  induction l with
  | nil => rfl
  | cons a l ih =>
    rw [List.takeWhile_cons, h a (by simp)]
    simp [ih (fun x hx => h x (by simp [hx]))]

theorem dropWhile_eq_nil_of (p : Sel → Bool) (l : List Sel) (h : ∀ x ∈ l, p x = true) :
    l.dropWhile p = [] := by
  induction l with
  | nil => rfl
  | cons a l ih =>
    rw [List.dropWhile_cons, h a (by simp)]
    simp [ih (fun x hx => h x (by simp [hx]))]

theorem isRange_false_of_toggle (x : Sel) (h : x.type = SType.TOGGLE) : isRange x = false := by
  simp [isRange, h]

theorem splitScan_none_of_noRange (t : SelTree) (n : Nat) (s : List Sel)
    (h : ∀ x ∈ s, isRange x = false) : splitScan t n s = none := by
  induction s with
  | nil => rfl
  | cons a s ih =>
    rw [splitScan]
    rw [h a (by simp)]
    simp [ih (fun x hx => h x (by simp [hx]))]

theorem handleToggle_push (t : SelTree) (n : Nat) (s : List Sel)
    (hr : ∀ x ∈ s, isRange x = false) (hn : ∀ x ∈ s, x.node ≠ n) :
    handleToggle t s n = Sel.mk n SType.TOGGLE :: s := by
  rw [handleToggle, splitScan_none_of_noRange t n s hr]
  have hfil : s.takeWhile (fun x => !isRange x) = s := by
    apply takeWhile_eq_self_of
    intro x hx
    simp [hr x hx]
  simp only [hfil]
  have : s.filter (fun x => x.node == n) = [] := by
    rw [List.filter_eq_nil_iff]
    intro x hx
    simp [hn x hx]
  rw [this]
  rfl

theorem handleToggle_remove (t : SelTree) (n : Nat) (s : List Sel)
    (hr : ∀ x ∈ s, isRange x = false) (hn : ∃ x ∈ s, x.node = n) :
    handleToggle t s n = s.filter (fun x => x.node != n) := by
  rw [handleToggle, splitScan_none_of_noRange t n s hr]
  have hfil : s.takeWhile (fun x => !isRange x) = s := by
    apply takeWhile_eq_self_of
    intro x hx
    simp [hr x hx]
  have hdrop : s.dropWhile (fun x => !isRange x) = [] := by
    apply dropWhile_eq_nil_of
    intro x hx
    simp [hr x hx]
  simp only [hfil, hdrop]
  obtain ⟨x, hx, hxn⟩ := hn
  have : (s.filter (fun x => x.node == n)).isEmpty = false := by
    rw [List.isEmpty_eq_false_iff_exists_mem]
    exact ⟨x, by simp [List.mem_filter, hx, hxn]⟩
  rw [this]
  simp

theorem asArray_fold_toggles (t : SelTree) (l : List Sel) (acc : List Nat) (last : Option Sel)
    (h : ∀ x ∈ l, x.type = SType.TOGGLE) :
    (l.foldl (asArrayStep t) (acc, last)).1 = acc ++ l.map Sel.node := by
  induction l generalizing acc last with
  | nil => simp
  | cons a l ih =>
    have ha : a.type = SType.TOGGLE := h a (by simp)
    rw [List.foldl_cons]
    have : asArrayStep t (acc, last) a = (acc ++ [a.node], some a) := by
      rw [asArrayStep, ha]
    rw [this, ih (acc ++ [a.node]) (some a) (fun x hx => h x (by simp [hx]))]
    simp

theorem asArrayRaw_toggles (t : SelTree) (s : List Sel)
    (h : ∀ x ∈ s, x.type = SType.TOGGLE) :
    asArrayRaw t s = s.map Sel.node := by
  rw [asArrayRaw, asArray_fold_toggles t _ [] none (fun x hx => h x (by rw [List.mem_reverse] at hx; exact hx))]
  simp [List.map_reverse]

theorem hasDefault_false_iff (s : List Sel) :
    hasDefault s = false ↔ noDefaultStack s := by
  rw [hasDefault, noDefaultStack]
  rw [← Bool.not_eq_true, List.any_eq_true]
  constructor
  · intro h x hx
    intro hty
    exact h ⟨x, hx, by rw [hty]⟩
  · rintro h ⟨x, hx, hxt⟩
    have := h x hx
    revert hxt this
    cases x.type <;> simp

/-! ### Helper lemmas: stack membership under transitions -/

theorem mem_removeSubsumed (p : Sel → Bool) (l : List Sel) (b : Bool) (x : Sel)
    (h : x ∈ removeSubsumed p l b) : x ∈ l := by
  induction l generalizing b with
  | nil => simp [removeSubsumed] at h
  | cons a l ih =>
    rw [removeSubsumed] at h
    by_cases hp : p a
    · rw [if_pos hp] at h
      by_cases hb : b
      · subst hb
        simp only [if_pos rfl] at h
        · exact List.mem_cons_of_mem a (ih true h)
      · simp only [hb] at h
        rcases List.mem_cons.mp h with h | h
        · simp [h]
        · exact List.mem_cons_of_mem a (ih true h)
    · rw [if_neg hp] at h
      rcases List.mem_cons.mp h with h | h
      · simp [h]
      · exact List.mem_cons_of_mem a (ih b h)

theorem removeSubsumed_cons (p : Sel → Bool) (a : Sel) (l : List Sel) :
    removeSubsumed p (a :: l) false = a :: removeSubsumed p l (p a) := by
  rw [removeSubsumed]
  by_cases hp : p a
  · simp [hp]
  · simp [hp]

theorem splitScan_shape (t : SelTree) (n : Nat) (s s' : List Sel)
    (h : splitScan t n s = some s') :
    ∃ pre r rest, s = pre ++ r :: rest ∧ isRange r = true ∧
      s' = pre ++
        ((((stateSelectionRange t ((rest.head?).map Sel.node) r.node).erase n).drop 1).map
          (fun m => Sel.mk m SType.TOGGLE)).reverse ++ rest := by
  induction s generalizing s' with
  | nil => simp [splitScan] at h
  | cons a s ih =>
    rw [splitScan] at h
    by_cases hr : isRange a
    · rw [if_pos hr] at h
      by_cases hc : (stateSelectionRange t ((s.head?).map Sel.node) a.node).contains n
      · rw [if_pos hc] at h
        refine ⟨[], a, s, by simp, hr, ?_⟩
        simp only [Option.some.injEq] at h
        simp [← h]
      · rw [if_neg hc] at h
        rcases Option.map_eq_some'.mp h with ⟨s'', hs'', rfl⟩
        obtain ⟨pre, r, rest, hdec, hrr, hout⟩ := ih s'' hs''
        exact ⟨a :: pre, r, rest, by simp [hdec], hrr, by simp [hout]⟩
    · rw [if_neg hr] at h
      rcases Option.map_eq_some'.mp h with ⟨s'', hs'', rfl⟩
      obtain ⟨pre, r, rest, hdec, hrr, hout⟩ := ih s'' hs''
      exact ⟨a :: pre, r, rest, by simp [hdec], hrr, by simp [hout]⟩

theorem noDefault_handleToggle (t : SelTree) (n : Nat) (s : List Sel)
    (h : noDefaultStack s) : noDefaultStack (handleToggle t s n) := by
  rw [handleToggle]
  cases hsp : splitScan t n s with
  | some s' =>
    obtain ⟨pre, r, rest, hdec, _, hout⟩ := splitScan_shape t n s s' hsp
    intro x hx
    rw [hout] at hx
    simp only [List.mem_append] at hx
    rcases hx with (hx | hx) | hx
    · exact h x (by rw [hdec]; simp [hx])
    · rw [List.mem_reverse, List.mem_map] at hx
      obtain ⟨m, _, rfl⟩ := hx
      simp
    · exact h x (by rw [hdec]; simp [hx])
  | none =>
    simp only []
    intro x hx
    by_cases he : (List.filter (fun x => x.node == n) (List.takeWhile (fun x => !isRange x) s)).isEmpty
    · rw [if_pos he] at hx
      rcases List.mem_cons.mp hx with hx | hx
      · simp [hx]
      · exact h x hx
    · rw [if_neg he] at hx
      rcases List.mem_append.mp hx with hx | hx
      · have := List.mem_filter.mp hx
        exact h x ((List.takeWhile_sublist _).mem this.1)
      · exact h x ((List.dropWhile_sublist _).mem hx)

theorem noDefault_handleRange (t : SelTree) (n : Nat) (s : List Sel)
    (h : noDefaultStack s) : noDefaultStack (handleRange t s n) := by
  rw [handleRange.eq_def]
  cases s with
  | nil =>
    dsimp only
    intro x hx
    rcases List.mem_cons.mp hx with hx | hx
    · simp [hx]
    · simp at hx
  | cons a s =>
    dsimp only
    by_cases hr : isRange a
    · rw [if_pos hr]
      intro x hx
      rcases List.mem_cons.mp hx with hx | hx
      · simp [hx]
      · exact h x (by simp [hx])
    · rw [if_neg hr]
      intro x hx
      rcases List.mem_cons.mp hx with hx | hx
      · simp [hx]
      · rcases List.mem_append.mp hx with hx | hx
        · have := mem_removeSubsumed _ _ _ _ hx
          exact h x ((List.takeWhile_sublist _).mem this)
        · exact h x ((List.dropWhile_sublist _).mem hx)

theorem noDefault_next (t : SelTree) (s u : List Sel) (g : Gesture)
    (h : noDefaultStack s) (hn : nextStateE t s g = Except.ok u) : noDefaultStack u := by
  cases g with
  | reset =>
    simp only [nextStateE, Except.ok.injEq] at hn
    subst hn
    intro x hx
    simp at hx
  | sel m ty =>
    cases ty with
    | DEFAULT =>
      simp only [nextStateE, Except.ok.injEq] at hn
      subst hn
      intro x hx
      rcases List.mem_cons.mp hx with hx | hx
      · simp [handleDefault] at hx ⊢
        simp [hx]
      · simp [handleDefault] at hx
    | TOGGLE =>
      rw [nextStateE, (hasDefault_false_iff s).mpr h] at hn
      simp only [Bool.false_eq_true, if_false, Except.ok.injEq] at hn
      subst hn
      exact noDefault_handleToggle t m s h
    | RANGE =>
      rw [nextStateE, (hasDefault_false_iff s).mpr h] at hn
      simp only [Bool.false_eq_true, if_false, Except.ok.injEq] at hn
      subst hn
      exact noDefault_handleRange t m s h

theorem noDefault_reach (t : SelTree) (s : List Sel) (h : Reach t s) : noDefaultStack s := by
  induction h with
  | nil => intro x hx; simp at hx
  | step s u g _ hn ih => exact noDefault_next t s u g ih hn

/-! ### Helper lemmas: the anchored-range chain invariant -/

theorem isRange_true_iff (x : Sel) : isRange x = true ↔ x.type = SType.RANGE := by
  rw [isRange]
  cases x.type <;> simp

theorem type_toggle_of (x : Sel) (hr : isRange x = false) (hd : x.type ≠ SType.DEFAULT) :
    x.type = SType.TOGGLE := by
  rw [isRange] at hr
  revert hr hd
  cases x.type <;> simp

theorem chain_of_noRange (l : List Sel) (h : ∀ x ∈ l, isRange x = false) :
    rangeAnchored l := by
  induction l with
  | nil => exact List.chain'_nil
  | cons a l ih =>
    rw [rangeAnchored, List.chain'_cons']
    constructor
    · intro y _ hra
      have := h a (by simp)
      rw [(isRange_true_iff a).mpr hra] at this
      cases this
    · exact ih (fun x hx => h x (by simp [hx]))

theorem rangeAnchored_handleRange (t : SelTree) (n : Nat) (s : List Sel)
    (hd : noDefaultStack s) (hc : rangeAnchored s) :
    rangeAnchored (handleRange t s n) := by
  rw [handleRange.eq_def]
  cases s with
  | nil => exact List.chain'_singleton _
  | cons a s =>
    dsimp only
    by_cases hr : isRange a
    · rw [if_pos hr]
      rw [rangeAnchored, List.chain'_cons'] at hc ⊢
      refine ⟨?_, hc.2⟩
      intro y hy _
      exact hc.1 y hy ((isRange_true_iff a).mp hr)
    · rw [if_neg hr]
      rw [Bool.not_eq_true] at hr
      have hta : a.type = SType.TOGGLE := type_toggle_of a hr (hd a (by simp))
      have hpa : (fun x => !isRange x) a = true := by simp [hr]
      have hseg : List.takeWhile (fun x => !isRange x) (a :: s)
          = a :: List.takeWhile (fun x => !isRange x) s := by
        rw [List.takeWhile_cons, if_pos hpa]
      rw [rangeAnchored, hseg, removeSubsumed_cons, List.cons_append, List.chain'_cons',
        List.chain'_cons']
      set sg := removeSubsumed (fun x => selIn t (Option.map Sel.node (a :: s).head?) n x.node)
        (List.takeWhile (fun x => !isRange x) s)
        ((fun x => selIn t (Option.map Sel.node (a :: s).head?) n x.node) a) with hsg
      have hsg_mem : ∀ x ∈ sg, isRange x = false := by
        intro x hx
        have hx1 := mem_removeSubsumed _ _ _ _ (hsg ▸ hx)
        have := List.mem_takeWhile_imp hx1
        simpa using this
      have hbelow : rangeAnchored (List.dropWhile (fun x => !isRange x) (a :: s)) := by
        have hdec := List.takeWhile_append_dropWhile (fun x => !isRange x) (a :: s)
        rw [rangeAnchored] at hc
        rw [← hdec, List.chain'_append] at hc
        exact hc.2.1
      refine ⟨?_, ?_, ?_⟩
      · intro y hy _
        have hy' : y = a := by
          rw [List.head?_cons, Option.mem_def, Option.some.injEq] at hy
          exact hy.symm
        rw [hy', hta]
      · intro y _ hra
        rw [hta] at hra
        cases hra
      · rw [List.chain'_append]
        refine ⟨chain_of_noRange sg hsg_mem, hbelow, ?_⟩
        intro x hx y _ hxr
        have := hsg_mem x (List.mem_of_mem_getLast? hx)
        rw [(isRange_true_iff x).mpr hxr] at this
        cases this

theorem rangeAnchored_handleToggle (t : SelTree) (n : Nat) (s : List Sel)
    (hd : noDefaultStack s) (hc : rangeAnchored s) :
    rangeAnchored (handleToggle t s n) := by
  rw [handleToggle]
  cases hsp : splitScan t n s with
  | some s' =>
    obtain ⟨pre, r, rest, hdec, hrr, hout⟩ := splitScan_shape t n s s' hsp
    subst hdec
    rw [rangeAnchored] at hc ⊢
    rw [List.chain'_append, List.chain'_cons'] at hc
    obtain ⟨hpre, ⟨hjr, hrest⟩, hj⟩ := hc
    set subs := ((((stateSelectionRange t ((rest.head?).map Sel.node) r.node).erase n).drop 1).map
      (fun m => Sel.mk m SType.TOGGLE)).reverse with hsubs
    have hsubs_tog : ∀ x ∈ subs, x.type = SType.TOGGLE := by
      intro x hx
      rw [hsubs, List.mem_reverse, List.mem_map] at hx
      obtain ⟨m, _, rfl⟩ := hx
      rfl
    rw [hout, List.chain'_append]
    refine ⟨?_, hrest, ?_⟩
    · rw [List.chain'_append]
      refine ⟨hpre, ?_, ?_⟩
      · apply chain_of_noRange
        intro x hx
        rw [isRange, hsubs_tog x hx]
      · intro x hx y hy hxr
        exact hsubs_tog y (List.mem_of_mem_head? hy)
    · intro x hx y hy hxr
      exact hjr y hy ((isRange_true_iff r).mp hrr)
  | none =>
    simp only []
    by_cases he : (List.filter (fun x => x.node == n) (List.takeWhile (fun x => !isRange x) s)).isEmpty
    · rw [if_pos he]
      rw [rangeAnchored, List.chain'_cons']
      refine ⟨?_, hc⟩
      intro y _ hra
      simp at hra
    · rw [if_neg he]
      rw [rangeAnchored, List.chain'_append]
      have hseg_mem : ∀ x ∈ (List.takeWhile (fun x => !isRange x) s).filter (fun x => x.node != n),
          isRange x = false := by
        intro x hx
        have hx1 := (List.mem_filter.mp hx).1
        have := List.mem_takeWhile_imp hx1
        simpa using this
      have hbelow : rangeAnchored (List.dropWhile (fun x => !isRange x) s) := by
        have hdec := List.takeWhile_append_dropWhile (fun x => !isRange x) s
        rw [rangeAnchored] at hc
        rw [← hdec, List.chain'_append] at hc
        exact hc.2.1
      refine ⟨chain_of_noRange _ hseg_mem, hbelow, ?_⟩
      intro x hx y _ hxr
      have := hseg_mem x (List.mem_of_mem_getLast? hx)
      rw [(isRange_true_iff x).mpr hxr] at this
      cases this

theorem rangeAnchored_next (t : SelTree) (s u : List Sel) (g : Gesture)
    (hd : noDefaultStack s) (hc : rangeAnchored s)
    (hn : nextStateE t s g = Except.ok u) : rangeAnchored u := by
  cases g with
  | reset =>
    simp only [nextStateE, Except.ok.injEq] at hn
    subst hn
    exact List.chain'_nil
  | sel m ty =>
    cases ty with
    | DEFAULT =>
      simp only [nextStateE, Except.ok.injEq] at hn
      subst hn
      exact List.chain'_singleton _
    | TOGGLE =>
      rw [nextStateE, (hasDefault_false_iff s).mpr hd] at hn
      simp only [Bool.false_eq_true, if_false, Except.ok.injEq] at hn
      subst hn
      exact rangeAnchored_handleToggle t m s hd hc
    | RANGE =>
      rw [nextStateE, (hasDefault_false_iff s).mpr hd] at hn
      simp only [Bool.false_eq_true, if_false, Except.ok.injEq] at hn
      subst hn
      exact rangeAnchored_handleRange t m s hd hc

/-- C2 amended: every reachable state has a stack free of DEFAULT
gestures, and every RANGE gesture with an element below it sits directly
above a TOGGLE gesture.  (A RANGE can be the bottom element of the stack:
a RANGE gesture on the empty state leaves an anchorless RANGE there, see
the counterexample.) -/
theorem c2_amended (t : SelTree) (s : List Sel) (h : Reach t s) :
    noDefaultStack s ∧ rangeAnchored s := by
  induction h with
  | nil => exact ⟨fun x hx => by simp at hx, List.chain'_nil⟩
  | step s u g _ hn ih =>
    exact ⟨noDefault_next t s u g ih.1 hn, rangeAnchored_next t s u g ih.1 ih.2 hn⟩

/-- C2 amended witness: the invariant at a concrete reachable state. -/
theorem c2_amended_witness :
    noDefaultStack [Sel.mk 112 SType.RANGE, Sel.mk 11 SType.TOGGLE] ∧
    rangeAnchored [Sel.mk 112 SType.RANGE, Sel.mk 11 SType.TOGGLE] :=
  c2_amended mockSel [Sel.mk 112 SType.RANGE, Sel.mk 11 SType.TOGGLE]
    (Reach.step [Sel.mk 11 SType.TOGGLE] _ (Gesture.sel 112 SType.RANGE)
      (Reach.step [] _ (Gesture.sel 11 SType.TOGGLE) Reach.nil rfl) rfl)

/-! ### C1 amended: toggle-only reachability keeps the projection duplicate-free -/

theorem reachNR_inv (t : SelTree) (s : List Sel) (h : ReachNR t s) :
    (∀ x ∈ s, x.type = SType.TOGGLE) ∧ (s.map Sel.node).Nodup := by
  induction h with
  | nil => exact ⟨fun x hx => by simp at hx, by simp⟩
  | step s u g hre hg hn ih =>
    obtain ⟨htog, hnd⟩ := ih
    have hnodef : noDefaultStack s := by
      intro x hx
      rw [htog x hx]
      simp
    cases g with
    | reset =>
      simp only [nextStateE, Except.ok.injEq] at hn
      subst hn
      exact ⟨fun x hx => by simp at hx, by simp⟩
    | sel m ty =>
      cases ty with
      | DEFAULT =>
        simp only [nextStateE, Except.ok.injEq] at hn
        subst hn
        refine ⟨?_, by simp [handleDefault]⟩
        intro x hx
        rw [handleDefault] at hx
        rcases List.mem_cons.mp hx with hx | hx
        · rw [hx]
        · simp at hx
      | TOGGLE =>
        rw [nextStateE, (hasDefault_false_iff s).mpr hnodef] at hn
        simp only [Bool.false_eq_true, if_false, Except.ok.injEq] at hn
        subst hn
        have hr : ∀ x ∈ s, isRange x = false :=
          fun x hx => isRange_false_of_toggle x (htog x hx)
        by_cases hex : ∃ x ∈ s, x.node = m
        · rw [handleToggle_remove t m s hr hex]
          constructor
          · intro x hx
            exact htog x (List.mem_filter.mp hx).1
          · exact List.Nodup.sublist (List.Sublist.map Sel.node (List.filter_sublist s)) hnd
        · push_neg at hex
          rw [handleToggle_push t m s hr hex]
          constructor
          · intro x hx
            rcases List.mem_cons.mp hx with hx | hx
            · rw [hx]
            · exact htog x hx
          · rw [List.map_cons, List.nodup_cons]
            refine ⟨?_, hnd⟩
            intro hmem
            rw [List.mem_map] at hmem
            obtain ⟨x, hx, hxm⟩ := hmem
            exact hex x hx hxm
      | RANGE => cases hg

/-- C1 amended: for every selection state reachable from the empty state
by a sequence of nextState transitions containing no RANGE gesture
(TOGGLE, DEFAULT, reset only), the projection `asArray()` contains each
node identity at most once.  (With RANGE gestures the projection can hold
duplicates, see the counterexample.) -/
theorem c1_amended (t : SelTree) (s : List Sel) (h : ReachNR t s) :
    (asArrayRaw t s).Nodup := by
  obtain ⟨htog, hnd⟩ := reachNR_inv t s h
  rw [asArrayRaw_toggles t s htog]
  exact hnd

/-- C1 amended witness: a concrete no-RANGE reachable state with a
duplicate-free projection. -/
theorem c1_amended_witness :
    (asArrayRaw mockSel [Sel.mk 11 SType.TOGGLE, Sel.mk 13 SType.TOGGLE]).Nodup :=
  c1_amended mockSel [Sel.mk 11 SType.TOGGLE, Sel.mk 13 SType.TOGGLE]
    (ReachNR.step [Sel.mk 13 SType.TOGGLE] _ (Gesture.sel 11 SType.TOGGLE)
      (ReachNR.step [] _ (Gesture.sel 13 SType.TOGGLE) ReachNR.nil trivial rfl) trivial rfl)

/-! ### C3 amended: the TOGGLE gesture recipe agrees with direct replacement -/

theorem toggle_foldlM (t : SelTree) (ns : List Nat) (hnd : ns.Nodup) :
    ns.reverse.foldlM (fun st n => nextStateE t st (Gesture.sel n SType.TOGGLE)) ([] : List Sel)
      = Except.ok (ns.map (fun n => Sel.mk n SType.TOGGLE)) := by
  induction ns with
  | nil => rfl
  | cons n rest ih =>
    rw [List.nodup_cons] at hnd
    rw [List.reverse_cons, List.foldlM_append, ih hnd.2]
    have hstep : nextStateE t (rest.map (fun n => Sel.mk n SType.TOGGLE))
        (Gesture.sel n SType.TOGGLE)
        = Except.ok (Sel.mk n SType.TOGGLE :: rest.map (fun n => Sel.mk n SType.TOGGLE)) := by
      have hnodef : noDefaultStack (rest.map (fun n => Sel.mk n SType.TOGGLE)) := by
        intro x hx
        rw [List.mem_map] at hx
        obtain ⟨m, _, rfl⟩ := hx
        simp
      rw [nextStateE, (hasDefault_false_iff _).mpr hnodef]
      simp only [Bool.false_eq_true, if_false, Except.ok.injEq]
      have hr : ∀ x ∈ rest.map (fun n => Sel.mk n SType.TOGGLE), isRange x = false := by
        intro x hx
        rw [List.mem_map] at hx
        obtain ⟨m, _, rfl⟩ := hx
        rfl
      have hno : ∀ x ∈ rest.map (fun n => Sel.mk n SType.TOGGLE), x.node ≠ n := by
        intro x hx
        rw [List.mem_map] at hx
        obtain ⟨m, hm, rfl⟩ := hx
        intro hcon
        have hmn : m = n := hcon
        rw [hmn] at hm
        exact hnd.1 hm
      exact handleToggle_push t n _ hr hno
    simp only [List.foldlM_cons, List.foldlM_nil, bind_pure]
    exact hstep

/-- C3 amended: for every duplicate-free ordered list ns of valid
selectable nodes, directly replacing the selected list with ns (the
legacy setSelection) yields the same projection as a reset followed by
one TOGGLE gesture per node of ns in reverse order, and both equal ns.
(With DEFAULT gestures, as the claim literally says, only the first node
of ns survives, because handleDefault replaces the whole stack; see the
counterexample.) -/
theorem c3_amended (t : SelTree) (s : List Sel) (ns : List Nat) (hnd : ns.Nodup)
    (hv : ∀ n ∈ ns, t.valid n = true ∧ t.selectable n = true) :
    specSetSelectionToggle t s ns
      = Except.ok (ns.map (fun n => Sel.mk n SType.TOGGLE)) ∧
    asArrayRaw t (ns.map (fun n => Sel.mk n SType.TOGGLE)) = ns ∧
    legacySetSelection t ns = ns := by
  refine ⟨?_, ?_, ?_⟩
  · rw [specSetSelectionToggle]
    exact toggle_foldlM t ns hnd
  · rw [asArrayRaw_toggles]
    · rw [List.map_map]
      have hid : (Sel.node ∘ fun n => Sel.mk n SType.TOGGLE) = id := rfl
      rw [hid, List.map_id]
    · intro x hx
      rw [List.mem_map] at hx
      obtain ⟨m, _, rfl⟩ := hx
      rfl
  · rw [legacySetSelection, List.filter_eq_self]
    intro n hn
    have := hv n hn
    simp [this.1, this.2]

/-- C3 amended witness: the two implementations agree on ns = [1.1, 1]
over the mock tree. -/
theorem c3_amended_witness :
    specSetSelectionToggle mockSel [] [11, 1]
      = Except.ok [Sel.mk 11 SType.TOGGLE, Sel.mk 1 SType.TOGGLE] ∧
    asArrayRaw mockSel [Sel.mk 11 SType.TOGGLE, Sel.mk 1 SType.TOGGLE] = [11, 1] ∧
    legacySetSelection mockSel [11, 1] = [11, 1] :=
  c3_amended mockSel [] [11, 1] (by decide) (by decide)

/-! ### C4 amended: selectRange with a disjoint prior selection -/

theorem jsIndexOf_eq_neg_one (l : List Nat) (x : Nat) (h : x ∉ l) : jsIndexOf l x = -1 := by
  induction l with
  | nil => rfl
  | cons y ys ih =>
    rw [jsIndexOf]
    have hxy : ¬y = x := fun hc => h (by rw [hc]; simp)
    rw [if_neg hxy]
    have := ih (fun hc => h (List.mem_cons_of_mem y hc))
    simp [this]

theorem selectRangeSpliceGo_disjoint (range copy : List Nat)
    (h : ∀ x ∈ copy, x ∉ range) :
    ∀ fuel idx, selectRangeSpliceGo range fuel copy idx = copy := by
  intro fuel
  induction fuel with
  | zero => intro idx; rfl
  | succ fuel ih =>
    intro idx
    rw [selectRangeSpliceGo]
    by_cases hlt : idx < copy.length
    · rw [dif_pos hlt]
      have hrm : jsRemoveAt range copy (copy.get ⟨idx, hlt⟩) = copy := by
        rw [jsRemoveAt, jsIndexOf_eq_neg_one range _ (h _ (List.get_mem copy idx hlt))]
        simp
      rw [hrm]
      exact ih (idx + 1)
    · rw [dif_neg hlt]

theorem selectRangeSplice_disjoint (range copy : List Nat)
    (h : ∀ x ∈ copy, x ∉ range) : selectRangeSplice range copy = copy :=
  selectRangeSpliceGo_disjoint range copy h copy.length 0

/-- C4 amended: `selectRange(to, from, preserveSelection := true)` with a
valid non-empty range whose nodes are DISJOINT from the prior selection
results in the range, ordered `to` first and `from` last, prepended to
the unchanged prior selection list.  (The claim's `from first, to last`
order is the opposite of what the code and the repository's tests
produce, and for a prior selection overlapping the range the removal loop
of the code splices the wrong elements, see the counterexample.) -/
theorem c4_amended (t : SelTree) (selected : List Nat) (toN fr : Nat)
    (hne : modelSelectionRange t toN (some fr) ≠ [])
    (hdisj : ∀ x ∈ selected, x ∉ modelSelectionRange t toN (some fr))
    (hval : ∀ x ∈ (modelSelectionRange t toN (some fr)).reverse ++ selected,
      t.valid x = true ∧ t.selectable x = true) :
    modelSelectRange t selected toN (some fr) true
      = (modelSelectionRange t toN (some fr)).reverse ++ selected := by
  simp only [modelSelectRange]
  have hemp : ((modelSelectionRange t toN (some fr)).reverse).isEmpty = false := by
    rw [List.isEmpty_eq_false_iff_exists_mem]
    obtain ⟨x, hx⟩ := List.exists_mem_of_ne_nil _ hne
    exact ⟨x, List.mem_reverse.mpr hx⟩
  rw [hemp]
  simp only [Bool.false_eq_true, if_false, if_true]
  have hsp : selectRangeSplice ((modelSelectionRange t toN (some fr)).reverse) selected
      = selected := by
    apply selectRangeSplice_disjoint
    intro x hx hmem
    exact hdisj x hx (List.mem_reverse.mp hmem)
  rw [hsp, legacySetSelection, List.filter_eq_self]
  intro x hx
  have := hval x hx
  simp [this.1, this.2]

/-- C4 amended witness: prior selection [1, 1.1.2] is disjoint from the
range of selectRange(1.2.3, 1.2.1, preserve); the result is the range
(to first) followed by the untouched prior selection. -/
theorem c4_amended_witness :
    modelSelectRange mockSel [1, 112] 123 (some 121) true
      = [123, 122, 1212, 1211, 121, 1, 112] := by
  have h := c4_amended mockSel [1, 112] 123 121 (by decide) (by decide) (by decide)
  rw [h]
  rfl

/-! ### C9 amended: toggling the anchor of the topmost range -/

/-- C9 amended: if the topmost gesture is `RANGE b` with anchor toggle
`a` directly below it, the computed range is `a :: x :: rem` (the anchor
first, `x` the node immediately following it), the range has no
duplicates, and the rest of the stack consists of toggles none of which
selects `x`, then toggling the anchor `a` keeps `a` in the projection and
removes `x` from it.  (In general `x` can remain selected when another
RANGE below contributes it, see the counterexample.) -/
theorem c9_amended (t : SelTree) (a b x : Nat) (rem : List Nat) (rest : List Sel)
    (hrange : stateSelectionRange t (some a) b = a :: x :: rem)
    (hnd : (a :: x :: rem).Nodup)
    (hrest : ∀ s ∈ rest, s.type = SType.TOGGLE)
    (hxr : ∀ s ∈ rest, s.node ≠ x) :
    ∃ u, nextStateE t (Sel.mk b SType.RANGE :: Sel.mk a SType.TOGGLE :: rest)
        (Gesture.sel a SType.TOGGLE) = Except.ok u ∧
      a ∈ asArrayRaw t u ∧ x ∉ asArrayRaw t u := by
  have hnodef : noDefaultStack (Sel.mk b SType.RANGE :: Sel.mk a SType.TOGGLE :: rest) := by
    intro y hy
    rcases List.mem_cons.mp hy with hy | hy
    · rw [hy]; simp
    · rcases List.mem_cons.mp hy with hy | hy
      · rw [hy]; simp
      · rw [hrest y hy]; simp
  refine ⟨(rem.map (fun m => Sel.mk m SType.TOGGLE)).reverse ++ (Sel.mk a SType.TOGGLE :: rest),
    ?_, ?_, ?_⟩
  · rw [nextStateE, (hasDefault_false_iff _).mpr hnodef]
    simp only [Bool.false_eq_true, if_false, Except.ok.injEq]
    have hsplit : splitScan t a (Sel.mk b SType.RANGE :: Sel.mk a SType.TOGGLE :: rest)
        = some ((rem.map (fun m => Sel.mk m SType.TOGGLE)).reverse
            ++ (Sel.mk a SType.TOGGLE :: rest)) := by
      rw [splitScan]
      dsimp only
      rw [show isRange (Sel.mk b SType.RANGE) = true from rfl]
      simp only [if_true]
      rw [show ((Sel.mk a SType.TOGGLE :: rest).head?).map Sel.node = some a from rfl]
      rw [hrange]
      rw [show (a :: x :: rem).contains a = true from by simp]
      simp only [if_true]
      rw [List.erase_cons_head]
      rfl
    rw [handleToggle, hsplit]
  · have hall : ∀ y ∈ (rem.map (fun m => Sel.mk m SType.TOGGLE)).reverse
        ++ (Sel.mk a SType.TOGGLE :: rest), y.type = SType.TOGGLE := by
      intro y hy
      rcases List.mem_append.mp hy with hy | hy
      · rw [List.mem_reverse, List.mem_map] at hy
        obtain ⟨m, _, rfl⟩ := hy
        rfl
      · rcases List.mem_cons.mp hy with hy | hy
        · rw [hy]
        · exact hrest y hy
    rw [asArrayRaw_toggles t _ hall]
    rw [List.map_append, List.mem_append]
    right
    simp
  · have hall : ∀ y ∈ (rem.map (fun m => Sel.mk m SType.TOGGLE)).reverse
        ++ (Sel.mk a SType.TOGGLE :: rest), y.type = SType.TOGGLE := by
      intro y hy
      rcases List.mem_append.mp hy with hy | hy
      · rw [List.mem_reverse, List.mem_map] at hy
        obtain ⟨m, _, rfl⟩ := hy
        rfl
      · rcases List.mem_cons.mp hy with hy | hy
        · rw [hy]
        · exact hrest y hy
    rw [asArrayRaw_toggles t _ hall]
    rw [List.map_append, List.mem_append]
    rw [List.nodup_cons, List.nodup_cons] at hnd
    intro hmem
    rcases hmem with hmem | hmem
    · rw [List.map_reverse, List.mem_reverse, List.map_map, List.mem_map] at hmem
      obtain ⟨m, hm, hmx⟩ := hmem
      have hmx' : m = x := hmx
      rw [hmx'] at hm
      exact hnd.2.1 hm
    · rw [List.map_cons, List.mem_cons] at hmem
      rcases hmem with hmem | hmem
      · have : x = a := hmem
        exact hnd.1 (by rw [← this]; simp)
      · rw [List.mem_map] at hmem
        obtain ⟨y, hy, hyx⟩ := hmem
        exact hxr y hy hyx

/-- C9 amended witness: on the mock tree, the state [TOGGLE 1.1,
RANGE 1.1.2] (bottom to top) has range [1.1, 1.1.1, 1.1.2]; toggling the
anchor 1.1 keeps 1.1 selected and unselects 1.1.1. -/
theorem c9_amended_witness :
    ∃ u, nextStateE mockSel [Sel.mk 112 SType.RANGE, Sel.mk 11 SType.TOGGLE]
        (Gesture.sel 11 SType.TOGGLE) = Except.ok u ∧
      11 ∈ asArrayRaw mockSel u ∧ 111 ∉ asArrayRaw mockSel u :=
  c9_amended mockSel 11 112 111 [112] [] rfl (by decide)
    (fun s hs => by simp at hs) (fun s hs => by simp at hs)

/-! ### C8: collapse reconciliation -/

/-- C8: whenever an expansion-change event reports a collapsed node `e`
with some selected node a descendant of `e`, and `e` is visible and
selectable (and a valid tree node), the handler replaces the selection by
exactly `[e]`; when no selected node is a descendant, or `e` is not
visible-selectable, the handler leaves the selection unchanged. -/
theorem c8_collapse_reconciliation (t : SelTree) (isAnc : Nat → Nat → Bool)
    (visSel : Nat → Bool) (selected : List Nat) (e : Nat)
    (hv : t.valid e = true) (hs : t.selectable e = true) :
    ((∃ s ∈ selected, isAnc e s = true) → visSel e = true →
        expansionHandler t isAnc visSel selected e false = [e]) ∧
    (((∀ s ∈ selected, isAnc e s = false) ∨ visSel e = false) →
        expansionHandler t isAnc visSel selected e false = selected) := by
  constructor
  · intro hdesc hvis
    rw [expansionHandler, if_pos, if_pos hvis]
    · rw [legacySetSelection]
      simp [hv, hs]
    · exact ⟨by simp, List.any_eq_true.mpr hdesc⟩
  · intro hcase
    rcases hcase with hnone | hvis
    · rw [expansionHandler, if_neg]
      intro hcon
      obtain ⟨s, hsmem, hscond⟩ := List.any_eq_true.mp hcon.2
      rw [hnone s hsmem] at hscond
      cases hscond
    · rw [expansionHandler]
      by_cases hcond : ¬false = true ∧ selected.any (fun s => isAnc e s) = true
      · rw [if_pos hcond, if_neg]
        rw [hvis]
        simp
      · rw [if_neg hcond]

/-- C8 witness: over the mock tree with 1.2 collapsed, a selection
holding the descendant 1.2.1.1 is replaced by [1.2], while a selection
holding only 1.3 (no descendant of 1.2) is kept. -/
theorem c8_witness :
    expansionHandler mockSel mockIsAncestor mockVisSel12 [1211] 12 false = [12] ∧
    expansionHandler mockSel mockIsAncestor mockVisSel12 [13] 12 false = [13] :=
  ⟨(c8_collapse_reconciliation mockSel mockIsAncestor mockVisSel12 [1211] 12 rfl rfl).1
      ⟨1211, by decide, by decide⟩ (by decide),
    (c8_collapse_reconciliation mockSel mockIsAncestor mockVisSel12 [13] 12 rfl rfl).2
      (Or.inl (by decide))⟩

/-! ### C10: a same-set gesture neither fires an event nor replaces the stack -/

/-- C10: if `addSelection` is called with a valid gesture whose resulting
projection holds exactly the same set of nodes as the current one, the
service fires no selection-changed event and keeps its gesture stack
unchanged, so the discarded gesture cannot influence later transitions. -/
theorem c10_same_set_no_event (t : SelTree) (s u : List Sel) (n : Nat) (ty : SType)
    (hval : t.valid n = true)
    (hnd : noDefaultStack s)
    (hnext : nextStateE t s (Gesture.sel n ty) = Except.ok u)
    (hset : ∀ x, x ∈ asArrayRaw t s ↔ x ∈ asArrayRaw t u) :
    addSelectionE t s (Gesture.sel n ty) = Except.ok (s, false) := by
  rw [addSelectionE, hval]
  simp only [Bool.not_true, Bool.false_eq_true, if_false]
  have hndu : noDefaultStack u := noDefault_next t s u _ hnd hnext
  have hAs : asArrayE t s = Except.ok (asArrayRaw t s) := by
    rw [asArrayE, (hasDefault_false_iff s).mpr hnd]
    simp
  have hAu : asArrayE t u = Except.ok (asArrayRaw t u) := by
    rw [asArrayE, (hasDefault_false_iff u).mpr hndu]
    simp
  rw [addSelectionGo, hnext, hAs]
  dsimp only
  rw [hAu]
  have h1 : difference (asArrayRaw t s) (asArrayRaw t u) = [] := by
    rw [difference, List.filter_eq_nil_iff]
    intro x hx
    simp only [Bool.not_eq_true', Bool.not_eq_false]
    exact List.elem_iff.mpr ((hset x).mp hx)
  have h2 : difference (asArrayRaw t u) (asArrayRaw t s) = [] := by
    rw [difference, List.filter_eq_nil_iff]
    intro x hx
    simp only [Bool.not_eq_true', Bool.not_eq_false]
    exact List.elem_iff.mpr ((hset x).mpr hx)
  dsimp only
  rw [h1, h2]
  rfl

/-- C10 witness: a DEFAULT gesture on node 1.1 while the state is the
single toggle of 1.1 regenerates the same projection; the service keeps
the old stack and fires nothing. -/
theorem c10_witness :
    addSelectionE mockSel [Sel.mk 11 SType.TOGGLE] (Gesture.sel 11 SType.DEFAULT)
      = Except.ok ([Sel.mk 11 SType.TOGGLE], false) :=
  c10_same_set_no_event mockSel [Sel.mk 11 SType.TOGGLE] [Sel.mk 11 SType.TOGGLE] 11
    SType.DEFAULT rfl
    (fun x hx => by rw [List.mem_singleton] at hx; rw [hx]; simp)
    rfl (fun x => Iff.rfl)

/-! ### C7: selection ranges between two visible nodes -/

theorem collectAfter_symm (fr toN : Nat) (l : List Nat) :
    collectAfter fr toN l = collectAfter toN fr l := by
  induction l with
  | nil => rfl
  | cons n rest ih =>
    rw [collectAfter, collectAfter]
    by_cases h : n = fr ∨ n = toN
    · rw [if_pos h, if_pos (Or.symm h)]
    · rw [if_neg h, if_neg (fun hc => h (Or.symm hc)), ih]

theorem collectRange_symm (fr toN : Nat) (l : List Nat) :
    collectRange fr toN l = collectRange toN fr l := by
  induction l with
  | nil => rfl
  | cons n rest ih =>
    rw [collectRange, collectRange]
    by_cases h : n = fr ∨ n = toN
    · rw [if_pos h, if_pos (Or.symm h), collectAfter_symm]
    · rw [if_neg h, if_neg (fun hc => h (Or.symm hc)), ih]

theorem collectRange_head (fr toN : Nat) (l : List Nat) :
    collectRange fr toN l = [] ∨ (∃ r, collectRange fr toN l = fr :: r) ∨
      (∃ r, collectRange fr toN l = toN :: r) := by
  induction l with
  | nil => exact Or.inl rfl
  | cons n rest ih =>
    rw [collectRange]
    by_cases h : n = fr ∨ n = toN
    · rw [if_pos h]
      rcases h with h | h
    <;> subst h
      · exact Or.inr (Or.inl ⟨_, rfl⟩)
      · exact Or.inr (Or.inr ⟨_, rfl⟩)
    · rw [if_neg h]
      exact ih

theorem jsIndexOf_cons_self (x : Nat) (l : List Nat) : jsIndexOf (x :: l) x = 0 := by
  rw [jsIndexOf, if_pos rfl]

theorem jsIndexOf_neg_one_or_nonneg (l : List Nat) (x : Nat) :
    jsIndexOf l x = -1 ∨ 0 ≤ jsIndexOf l x := by
  induction l with
  | nil => exact Or.inl rfl
  | cons y ys ih =>
    rw [jsIndexOf]
    by_cases h : y = x
    · rw [if_pos h]
      exact Or.inr (le_refl 0)
    · rw [if_neg h]
      dsimp only
      rcases ih with h1 | h1
      · rw [if_pos (by rw [h1]; norm_num)]
        exact Or.inl rfl
      · rw [if_neg (by omega)]
        omega

theorem jsIndexOf_cons_ne (y x : Nat) (l : List Nat) (h : y ≠ x) :
    jsIndexOf (y :: l) x = -1 ∨ 1 ≤ jsIndexOf (y :: l) x := by
  rw [jsIndexOf, if_neg h]
  dsimp only
  rcases jsIndexOf_neg_one_or_nonneg l x with h1 | h1
  · rw [if_pos (by rw [h1]; norm_num)]
    exact Or.inl rfl
  · rw [if_neg (by omega)]
    omega

theorem orient_reverse (R : List Nat) (a b : Nat) (hab : a ≠ b)
    (hhead : R = [] ∨ (∃ r, R = a :: r) ∨ (∃ r, R = b :: r)) :
    (if jsIndexOf R a > jsIndexOf R b then R.reverse else R)
      = (if jsIndexOf R b > jsIndexOf R a then R.reverse else R).reverse := by
  rcases hhead with h | h | h
  · subst h
    simp
  · obtain ⟨r, rfl⟩ := h
    have ha : jsIndexOf (a :: r) a = 0 := jsIndexOf_cons_self a r
    rcases jsIndexOf_cons_ne a b r hab with hb | hb
    · rw [if_pos (by omega), if_neg (by omega)]
    · rw [if_neg (by omega), if_pos (by omega), List.reverse_reverse]
  · obtain ⟨r, rfl⟩ := h
    have hb : jsIndexOf (b :: r) b = 0 := jsIndexOf_cons_self b r
    rcases jsIndexOf_cons_ne b a r (Ne.symm hab) with ha | ha
    · rw [if_neg (by omega), if_pos (by omega), List.reverse_reverse]
    · rw [if_pos (by omega), if_neg (by omega)]

theorem idxN_cons (x n : Nat) (l : List Nat) :
    idxN x (n :: l) = if n = x then 0 else idxN x l + 1 := by
  rw [idxN]

theorem collectAfter_take (a b : Nat) (l : List Nat)
    (hb : b ∈ l) (ha : a ∉ l) :
    collectAfter a b l = l.take (idxN b l + 1) := by
  induction l with
  | nil => simp at hb
  | cons m r ih =>
    by_cases hmb : m = b
    · subst hmb
      rw [collectAfter, if_pos (Or.inr rfl), idxN, if_pos rfl]
      simp
    · have hma : ¬m = a := fun hc => ha (by rw [hc]; simp)
      rw [collectAfter, if_neg (by
        intro hc
        rcases hc with hc | hc
        · exact hma hc
        · exact hmb hc), idxN, if_neg hmb]
      have hb' : b ∈ r := by
        rcases List.mem_cons.mp hb with hc | hc
        · exact absurd hc.symm hmb
        · exact hc
      have ha' : a ∉ r := fun hc => ha (List.mem_cons_of_mem m hc)
      rw [ih hb' ha']
      rfl

theorem collectRange_seg (a b : Nat) (l : List Nat)
    (hnd : l.Nodup) (hab : a ≠ b) (ha : a ∈ l) (hb : b ∈ l) :
    collectRange a b l
      = (l.drop (min (idxN a l) (idxN b l))).take
          (max (idxN a l) (idxN b l) - min (idxN a l) (idxN b l) + 1) := by
  induction l with
  | nil => simp at ha
  | cons n rest ih =>
    rw [List.nodup_cons] at hnd
    by_cases hna : n = a
    · have hbr : b ∈ rest := by
        rcases List.mem_cons.mp hb with hc | hc
        · have : b = a := by rw [hc, hna]
          exact absurd this (Ne.symm hab)
        · exact hc
      have hnb : ¬n = b := by rw [hna]; exact hab
      have hia : idxN a (n :: rest) = 0 := by rw [idxN, if_pos hna]
      have hib : idxN b (n :: rest) = idxN b rest + 1 := by rw [idxN, if_neg hnb]
      have h1 : min (idxN a (n :: rest)) (idxN b (n :: rest)) = 0 := by
        rw [hia, hib]; omega
      have h2 : max (idxN a (n :: rest)) (idxN b (n :: rest))
          - min (idxN a (n :: rest)) (idxN b (n :: rest)) + 1 = idxN b rest + 2 := by
        rw [hia, hib]; omega
      rw [h2, h1, List.drop_zero, List.take_succ_cons]
      have hanr : a ∉ rest := hna ▸ hnd.1
      rw [collectRange, if_pos (Or.inl hna), collectAfter_take a b rest hbr hanr]
    · by_cases hnb : n = b
      · have har : a ∈ rest := by
          rcases List.mem_cons.mp ha with hc | hc
          · exact absurd hc.symm hna
          · exact hc
        have hib : idxN b (n :: rest) = 0 := by rw [idxN, if_pos hnb]
        have hia : idxN a (n :: rest) = idxN a rest + 1 := by rw [idxN, if_neg hna]
        have h1 : min (idxN a (n :: rest)) (idxN b (n :: rest)) = 0 := by
          rw [hia, hib]; omega
        have h2 : max (idxN a (n :: rest)) (idxN b (n :: rest))
            - min (idxN a (n :: rest)) (idxN b (n :: rest)) + 1 = idxN a rest + 2 := by
          rw [hia, hib]; omega
        rw [h2, h1, List.drop_zero, List.take_succ_cons]
        have hbnr : b ∉ rest := hnb ▸ hnd.1
        rw [collectRange, if_pos (Or.inr hnb), collectAfter_symm,
          collectAfter_take b a rest har hbnr]
      · have har : a ∈ rest := by
          rcases List.mem_cons.mp ha with hc | hc
          · exact absurd hc.symm hna
          · exact hc
        have hbr : b ∈ rest := by
          rcases List.mem_cons.mp hb with hc | hc
          · exact absurd hc.symm hnb
          · exact hc
        have hia : idxN a (n :: rest) = idxN a rest + 1 := by rw [idxN, if_neg hna]
        have hib : idxN b (n :: rest) = idxN b rest + 1 := by rw [idxN, if_neg hnb]
        have h1 : min (idxN a (n :: rest)) (idxN b (n :: rest))
            = min (idxN a rest) (idxN b rest) + 1 := by
          rw [hia, hib]; omega
        have h2 : max (idxN a (n :: rest)) (idxN b (n :: rest))
            - min (idxN a (n :: rest)) (idxN b (n :: rest)) + 1
            = max (idxN a rest) (idxN b rest) - min (idxN a rest) (idxN b rest) + 1 := by
          rw [hia, hib]; omega
        rw [h2, h1, List.drop_succ_cons]
        rw [collectRange, if_neg (by
          intro hc
          rcases hc with hc | hc
          · exact hna hc
          · exact hnb hc)]
        exact ih hnd.2 har hbr

theorem mem_drop_take_iff (l : List Nat) (hnd : l.Nodup) (i k x : Nat) :
    x ∈ (l.drop i).take k ↔ x ∈ l ∧ i ≤ idxN x l ∧ idxN x l < i + k := by
  induction l generalizing i k with
  | nil => simp
  | cons n rest ih =>
    rw [List.nodup_cons] at hnd
    cases i with
    | zero =>
      cases k with
      | zero => simp
      | succ k =>
        rw [List.drop_zero, List.take_succ_cons]
        by_cases hx : x = n
        · subst hx
          have hidx : idxN x (x :: rest) = 0 := by rw [idxN, if_pos rfl]
          rw [hidx]
          constructor
          · intro _
            exact ⟨List.mem_cons_self x rest, by omega, by omega⟩
          · intro _
            exact List.mem_cons_self x (List.take k rest)
        · have hidx : idxN x (n :: rest) = idxN x rest + 1 := by
            rw [idxN, if_neg (fun hc => hx hc.symm)]
          rw [hidx]
          have hrec := ih hnd.2 0 k
          rw [List.drop_zero] at hrec
          constructor
          · intro hmem
            rcases List.mem_cons.mp hmem with hc | hmem
            · exact absurd hc hx
            · obtain ⟨hr, _, hlt⟩ := hrec.mp hmem
              exact ⟨List.mem_cons_of_mem n hr, by omega, by omega⟩
          · rintro ⟨hmem, _, hlt⟩
            rcases List.mem_cons.mp hmem with hc | hr
            · exact absurd hc hx
            · exact List.mem_cons_of_mem n (hrec.mpr ⟨hr, by omega, by omega⟩)
    | succ i =>
      rw [List.drop_succ_cons]
      by_cases hx : x = n
      · subst hx
        have hidx : idxN x (x :: rest) = 0 := by rw [idxN, if_pos rfl]
        rw [hidx]
        constructor
        · intro hmem
          have hsub : x ∈ rest := List.mem_of_mem_drop (List.mem_of_mem_take hmem)
          exact absurd hsub hnd.1
        · rintro ⟨_, hle, _⟩
          omega
      · have hidx : idxN x (n :: rest) = idxN x rest + 1 := by
          rw [idxN, if_neg (fun hc => hx hc.symm)]
        rw [hidx]
        have hrec := ih hnd.2 i k
        constructor
        · intro hmem
          obtain ⟨hr, h1, h2⟩ := hrec.mp hmem
          exact ⟨List.mem_cons_of_mem n hr, by omega, by omega⟩
        · rintro ⟨hmem, h1, h2⟩
          rcases List.mem_cons.mp hmem with hc | hr
          · exact absurd hc hx
          · exact hrec.mpr ⟨hr, by omega, by omega⟩

theorem modelSelectionRange_eq (t : SelTree) (fr toN : Nat)
    (hne : toN ≠ fr) (hroot : t.hasRoot = true)
    (hvt : t.valid toN = true) (hvf : t.valid fr = true) :
    modelSelectionRange t toN (some fr)
      = (if jsIndexOf (collectRange fr toN t.preorder) fr
            > jsIndexOf (collectRange fr toN t.preorder) toN
         then (collectRange fr toN t.preorder).reverse
         else collectRange fr toN t.preorder).filter (fun n => t.selectable n) := by
  simp only [modelSelectionRange]
  rw [if_neg (by simp [hne]), if_neg (by simp [hroot]), if_neg (by simp [hvt]),
    if_neg (by simp [hvf])]

/-- C7 amended: for distinct valid selectable endpoints the reversal
identity `selectionRange(b, a) = reverse(selectionRange(a, b))` holds
unconditionally; and when both endpoints additionally appear in the
collapse-pruned PreOrder (i.e. are visible), both lists contain exactly
the selectable nodes lying between the two endpoints inclusive.  (For a
valid endpoint hidden inside a collapsed subtree the inclusivity part
fails, see the counterexample.) -/
theorem c7_amended (t : SelTree) (a b : Nat)
    (hroot : t.hasRoot = true) (hnd : t.preorder.Nodup)
    (hva : t.valid a = true) (hvb : t.valid b = true) (hab : a ≠ b) :
    modelSelectionRange t b (some a) = (modelSelectionRange t a (some b)).reverse ∧
    (a ∈ t.preorder → b ∈ t.preorder → ∀ x,
      (x ∈ modelSelectionRange t b (some a) ↔
        t.selectable x = true ∧ x ∈ t.preorder ∧
        min (idxN a t.preorder) (idxN b t.preorder) ≤ idxN x t.preorder ∧
        idxN x t.preorder ≤ max (idxN a t.preorder) (idxN b t.preorder))) := by
  have e1 := modelSelectionRange_eq t a b (Ne.symm hab) hroot hvb hva
  have e2 := modelSelectionRange_eq t b a hab hroot hva hvb
  constructor
  · rw [e1, e2, collectRange_symm b a]
    rw [← List.filter_reverse]
    congr 1
    exact orient_reverse (collectRange a b t.preorder) a b hab
      (collectRange_head a b t.preorder)
  · intro hma hmb x
    have hseg := collectRange_seg a b t.preorder hnd hab hma hmb
    have hmm : min (idxN a t.preorder) (idxN b t.preorder)
        ≤ max (idxN a t.preorder) (idxN b t.preorder) := by omega
    have hmem : x ∈ collectRange a b t.preorder ↔
        x ∈ t.preorder ∧
        min (idxN a t.preorder) (idxN b t.preorder) ≤ idxN x t.preorder ∧
        idxN x t.preorder ≤ max (idxN a t.preorder) (idxN b t.preorder) := by
      rw [hseg, mem_drop_take_iff t.preorder hnd]
      constructor
      · rintro ⟨h1, h2, h3⟩
        exact ⟨h1, h2, by omega⟩
      · rintro ⟨h1, h2, h3⟩
        exact ⟨h1, h2, by omega⟩
    rw [e1]
    constructor
    · intro hx
      have hx1 := List.mem_filter.mp hx
      have hxR : x ∈ collectRange a b t.preorder := by
        by_cases hc : jsIndexOf (collectRange a b t.preorder) a
            > jsIndexOf (collectRange a b t.preorder) b
        · rw [if_pos hc] at hx1
          exact List.mem_reverse.mp hx1.1
        · rw [if_neg hc] at hx1
          exact hx1.1
      obtain ⟨h1, h2, h3⟩ := hmem.mp hxR
      exact ⟨hx1.2, h1, h2, h3⟩
    · rintro ⟨hsel, h1, h2, h3⟩
      apply List.mem_filter.mpr
      refine ⟨?_, hsel⟩
      have hxR := hmem.mpr ⟨h1, h2, h3⟩
      by_cases hc : jsIndexOf (collectRange a b t.preorder) a
          > jsIndexOf (collectRange a b t.preorder) b
      · rw [if_pos hc]
        exact List.mem_reverse.mpr hxR
      · rw [if_neg hc]
        exact hxR

/-- C7 amended witness: on the fully expanded mock tree with a = 1.2.1.2
and b = 1.2.2, the reversal identity holds and membership in
`selectionRange(b, a)` matches the between-positions description. -/
theorem c7_amended_witness :
    modelSelectionRange mockSel 122 (some 1212)
      = (modelSelectionRange mockSel 1212 (some 122)).reverse ∧
    (1212 ∈ modelSelectionRange mockSel 122 (some 1212) ∧
     122 ∈ modelSelectionRange mockSel 122 (some 1212) ∧
     123 ∉ modelSelectionRange mockSel 122 (some 1212)) := by
  have h := c7_amended mockSel 1212 122 rfl (by decide) rfl rfl (by decide)
  refine ⟨h.1, ?_, ?_, ?_⟩
  · exact (h.2 (by decide) (by decide) 1212).mpr ⟨rfl, by decide, by decide, by decide⟩
  · exact (h.2 (by decide) (by decide) 122).mpr ⟨rfl, by decide, by decide, by decide⟩
  · intro hmem
    have := (h.2 (by decide) (by decide) 123).mp hmem
    revert this
    decide
